import Mathlib

/-!
Verification of the OMS Daily Report Processor (src/script.js).

The core pipeline of the program is embedded shallowly over `List Char`
(JS strings become lists of characters):

* `extractJobName`   — src/script.js `extractJobName` (lines 40-104)
* `processPriority`  — src/script.js `processPriority` (lines 113-130)
* `parsePastedData`  — src/script.js `parsePastedData` (lines 136-189)
* `processData`      — src/script.js `processData` (lines 194-208)
* `generateTabSeparatedOutput` — src/script.js (lines 247-269)

JavaScript regular-expression operations on single-character classes are
embedded as character scans; `String.prototype.trim` and `\s` are embedded
over the ASCII whitespace characters.  JS `toUpperCase`/`toLowerCase` are
embedded with `Char.toUpper`/`Char.toLower` (the data handled by the
program is ASCII).
-/

namespace OMS

/-- A JS string, embedded as a list of characters. -/
abbrev Str := List Char

/-- Whitespace as matched by JS `\s` / `trim` (ASCII part). -/
def isWs (c : Char) : Bool :=
  c == ' ' || c == '\t' || c == '\n' || c == '\r' || c == '\x0B' || c == '\x0C'

/-- JS `String.prototype.trim`: drop whitespace from both ends. -/
def trim (s : Str) : Str :=
  ((s.dropWhile isWs).reverse.dropWhile isWs).reverse

/-- JS `toLowerCase` (ASCII). -/
def lowerStr (s : Str) : Str := s.map Char.toLower

/-- JS `toUpperCase` (ASCII). -/
def upperStr (s : Str) : Str := s.map Char.toUpper

/-- JS `String.prototype.split(sep)` for a single-character separator.
Always returns a non-empty list of fields. -/
def splitCh (sep : Char) : Str → List Str
  | [] => [[]]
  | c :: rest =>
    match splitCh sep rest with
    | [] => [[c]]
    | h :: t => if c = sep then [] :: h :: t else (c :: h) :: t

/-- JS `Array.prototype.join('\t')`. -/
def joinTab : List Str → Str
  | [] => []
  | [s] => s
  | s :: rest => s ++ '\t' :: joinTab rest

/-! ### Job-name extractor (src/script.js lines 40-104) -/

/-- A character of the JS class `[A-Za-z0-9_]` (the class `[A-Z0-9_]` under
the `i` flag). -/
def isWordChar (c : Char) : Bool := c.isAlpha || c.isDigit || c == '_'

/-- Greedy `[A-Z0-9_]+` (with `i`): the maximal leading run of word
characters, together with the remaining input. -/
def takeWordRun : Str → Str × Str
  | [] => ([], [])
  | c :: rest =>
    if isWordChar c then
      let p := takeWordRun rest
      (c :: p.1, p.2)
    else ([], c :: rest)

/-- Does the input start with `OMS_` case-insensitively (the literal of the
regex `/:\s*OMS_([A-Z0-9_]+)/gi`)? -/
def omsHead : Str → Bool
  | o :: m :: s :: u :: _ =>
    o.toLower == 'o' && m.toLower == 'm' && s.toLower == 's' && u == '_'
  | _ => false

/-- Attempt the part of the regex after the colon: `\s*OMS_([A-Z0-9_]+)`.
On success returns the captured group and the input remaining after the
whole match. -/
def afterColon (s : Str) : Option (Str × Str) :=
  let s1 := s.dropWhile isWs
  if omsHead s1 then
    let p := takeWordRun (s1.drop 4)
    if p.1 = [] then none else some p
  else none

/-- Fuelled scan implementing `matchAll` of `/:\s*OMS_([A-Z0-9_]+)/gi`:
leftmost matches, continuing after the end of each match.  The fuel is one
unit per character position, so `fuel = s.length` suffices. -/
def omsScanF : Nat → Str → List Str
  | 0, _ => []
  | _, [] => []
  | fuel + 1, c :: rest =>
    if c = ':' then
      match afterColon rest with
      | some (cap, rest2) => cap :: omsScanF fuel rest2
      | none => omsScanF fuel rest
    else omsScanF fuel rest

/-- All captured groups of `shortDescription.matchAll(/:\s*OMS_([A-Z0-9_]+)/gi)`,
in order of occurrence. -/
def omsMatches (s : Str) : List Str := omsScanF s.length s

/-- The literal `'OMS_'` prepended to each captured group (line 58). -/
def omsLit : Str := ['O', 'M', 'S', '_']

/-- JS `t === t.toUpperCase()` (line 61). -/
def isUpperStr (t : Str) : Bool := t == upperStr t

/-- JS falsiness of the `bestMatch` variable (`null` or `""`). -/
def jsFalsyOpt : Option Str → Bool
  | none => true
  | some s => s.isEmpty

/-- `bestMatch.length`, defaulting for `null` (never read in that case
because of JS short-circuiting, line 62). -/
def optLength : Option Str → Nat
  | none => 0
  | some s => s.length

/-- The first loop of `extractJobName` (lines 57-66): among the matched
texts keep the fully-upper-case one of the greatest length, earlier ones
winning ties. -/
def bestUpperFold : List Str → Option Str → Option Str
  | [], best => best
  | t :: rest, best =>
    if isUpperStr t && (jsFalsyOpt best || decide (optLength best < t.length)) then
      bestUpperFold rest (some t)
    else
      bestUpperFold rest best

/-- The `reduce` fallback of `extractJobName` (lines 70-73): the longest
matched text, earlier ones winning ties. -/
def longestFold : List Str → Str → Str
  | [], acc => acc
  | t :: rest, acc => longestFold rest (if acc.length < t.length then t else acc)

/-- Candidate selection of `extractJobName` (lines 55-74), applied to the
list of matched texts (`'OMS_' + match[1]` for each match). -/
def chooseCandidate : List Str → Str
  | [] => []
  | t0 :: rest =>
    match bestUpperFold (t0 :: rest) none with
    | some b => b
    | none => longestFold (t0 :: rest) t0

/-- A separator character of the truncation regexes `(_|-)`. -/
def isSep (c : Char) : Bool := c == '_' || c == '-'

/-- Case-insensitive: does `s` start with `kw`? -/
def lowersTo (kw : Str) (s : Str) : Bool :=
  lowerStr (s.take kw.length) == lowerStr kw

/-- Leftmost match index of `new RegExp("(_|-)(?:" + keyword + ")", "i")`
(line 85): the first position holding a separator immediately followed by
the keyword, case-insensitively. -/
def findSepKw (kw : Str) : Str → Option Nat
  | [] => none
  | c :: rest =>
    if isSep c && lowersTo kw rest then some 0
    else (findSepKw kw rest).map (· + 1)

/-- Four leading digits, as needed by `/(_|-)(\d{4})/`. -/
def fourDigits : Str → Bool
  | a :: b :: c :: d :: _ => a.isDigit && b.isDigit && c.isDigit && d.isDigit
  | _ => false

/-- Leftmost match index of `/(_|-)(\d{4})/` (line 95): the first position
holding a separator immediately followed by four digits. -/
def findSepYear : Str → Option Nat
  | [] => none
  | c :: rest =>
    if isSep c && fourDigits rest then some 0
    else (findSepYear rest).map (· + 1)

/-- The seven weekday names (line 78). -/
def daysOfWeek : List Str :=
  ["Sunday".data, "Monday".data, "Tuesday".data, "Wednesday".data,
   "Thursday".data, "Friday".data, "Saturday".data]

/-- The twelve month names (line 79). -/
def months : List Str :=
  ["January".data, "February".data, "March".data, "April".data, "May".data,
   "June".data, "July".data, "August".data, "September".data, "October".data,
   "November".data, "December".data]

/-- `dateKeywords = [...daysOfWeek, ...months]` (line 80). -/
def dateKeywords : List Str := daysOfWeek ++ months

/-- The truncation loop of `extractJobName` (lines 83-101): per keyword,
first the separator-plus-keyword check, then the separator-plus-four-digits
check; the first iteration in which either succeeds truncates before the
separator and stops. -/
def truncateLoop : List Str → Str → Str
  | [], best => best
  | kw :: rest, best =>
    match findSepKw kw best with
    | some i => best.take i
    | none =>
      match findSepYear best with
      | some i => best.take i
      | none => truncateLoop rest best

/-- The truncation pass over the full keyword list. -/
def truncateDate (best : Str) : Str := truncateLoop dateKeywords best

/-- src/script.js `extractJobName` (lines 40-104): collect the matches,
choose the best candidate text, truncate date-like fragments, and
upper-case the result. -/
def extractJobName (s : Str) : Str :=
  match omsMatches s with
  | [] => []
  | m0 :: ms =>
    upperStr (truncateDate (chooseCandidate ((m0 :: ms).map (fun cap => omsLit ++ cap))))

/-! ### Priority normalizer (src/script.js lines 113-130) -/

/-- The literal `moderate` being searched for (regex `/moderate/gi`). -/
def moderateLit : Str := "moderate".data

/-- The replacement text `Medium`. -/
def mediumLit : Str := "Medium".data

/-- Fuelled scan implementing `replace(/moderate/gi, 'Medium')`: leftmost,
global, resuming after each match. -/
def replModF : Nat → Str → Str
  | 0, s => s
  | _, [] => []
  | fuel + 1, c :: rest =>
    if lowersTo moderateLit (c :: rest) then
      mediumLit ++ replModF fuel (rest.drop 7)
    else
      c :: replModF fuel rest

/-- JS `replace(/moderate/gi, 'Medium')`. -/
def replaceModerate (s : Str) : Str := replModF s.length s

/-- Lines 125-127: `charAt(0).toUpperCase() + slice(1).toLowerCase()`,
guarded by non-emptiness. -/
def capFirst : Str → Str
  | [] => []
  | c :: rest => c.toUpper :: rest.map Char.toLower

/-- src/script.js `processPriority` (lines 113-130). -/
def processPriority (p : Str) : Str :=
  if p = [] then []
  else
    let s1 := trim (p.filter (fun c => !(c.isDigit || c == '-')))
    let s2 := replaceModerate s1
    capFirst s2

/-- Modelled from the spec's wording of the Priority Normalizer (§4.3):
strip all digit and hyphen characters, trim surrounding whitespace,
case-insensitively replace every occurrence of `moderate` with `Medium`,
then upper-case the first character and lower-case the rest. -/
def specPriority (p : Str) : Str :=
  capFirst (replaceModerate (trim (p.filter (fun c => !(c.isDigit || c == '-')))))

/-! ### Table parser (src/script.js lines 136-189) -/

/-- The ten logical fields of `INPUT_COLUMNS` (lines 11-22). -/
inductive ColKey where
  | NUMBER | CALLER | SHORT_DESCRIPTION | PRIORITY | CONFIGURATION_ITEM
  | STATE | ASSIGNMENT_GROUP | ASSIGNED_TO | SLA_DUE | OPENED
deriving DecidableEq

/-- `INPUT_COLUMNS` as an ordered association list (lines 11-22);
the iteration order of `Object.entries` is the declaration order. -/
def inputColumns : List (ColKey × Str) :=
  [(.NUMBER, "Number".data), (.CALLER, "Caller".data),
   (.SHORT_DESCRIPTION, "Short description".data), (.PRIORITY, "Priority".data),
   (.CONFIGURATION_ITEM, "Configuration item".data), (.STATE, "State".data),
   (.ASSIGNMENT_GROUP, "Assignment group".data), (.ASSIGNED_TO, "Assigned to".data),
   (.SLA_DUE, "SLA due".data), (.OPENED, "Opened".data)]

/-- The inner loop of lines 155-160: the first logical field whose
canonical name equals the header, case-insensitively. -/
def matchKey (h : Str) : Option ColKey :=
  (inputColumns.find? (fun kv => lowerStr h == lowerStr kv.2)).map (·.1)

/-- `columnIndices`: a partial map from logical fields to column
positions. -/
def ColumnIndices := ColKey → Option Nat

/-- Assignment `columnIndices[key] = index`. -/
def setIdx (f : ColumnIndices) (k : ColKey) (i : Nat) : ColumnIndices :=
  fun k' => if k' = k then some i else f k'

/-- The empty `columnIndices` object. -/
def emptyIndices : ColumnIndices := fun _ => none

/-- `headers.forEach((header, index) => ...)` of lines 152-161. -/
def buildIndicesAux : List Str → Nat → ColumnIndices → ColumnIndices
  | [], _, acc => acc
  | hd :: rest, i, acc =>
    buildIndicesAux rest (i + 1)
      (match matchKey (trim hd) with
       | some k => setIdx acc k i
       | none => acc)

/-- Builds `columnIndices` from the (already trimmed) header cells. -/
def buildIndices (headers : List Str) : ColumnIndices :=
  buildIndicesAux headers 0 emptyIndices

/-- JS falsiness of `columnIndices.KEY` in line 164: `undefined` and the
number `0` are both falsy. -/
def falsyIdx : Option Nat → Bool
  | none => true
  | some i => i == 0

/-- One parsed input record (spec §3 RawRow). -/
structure RawRow where
  number : Str
  state : Str
  priority : Str
  assignmentGroup : Str
  shortDescription : Str
deriving DecidableEq

/-- `columnIndices.KEY !== undefined ? values[columnIndices.KEY] || '' : ''`
(lines 175-179): out-of-range or empty cells give the empty string. -/
def getField (idx : ColumnIndices) (k : ColKey) (values : List Str) : Str :=
  match idx k with
  | some i => values.getD i []
  | none => []

/-- The row object of lines 174-180, built from the trimmed cell values. -/
def mkRow (idx : ColumnIndices) (values : List Str) : RawRow :=
  { number := getField idx .NUMBER values
    state := getField idx .STATE values
    priority := getField idx .PRIORITY values
    assignmentGroup := getField idx .ASSIGNMENT_GROUP values
    shortDescription := getField idx .SHORT_DESCRIPTION values }

/-- The data-row loop of lines 171-186: split each line on tabs, trim each
cell, build the row, and keep it only if `number` or `shortDescription` is
non-empty. -/
def parseRows (idx : ColumnIndices) : List Str → List RawRow
  | [] => []
  | l :: rest =>
    if !(mkRow idx ((splitCh '\t' l).map trim)).number.isEmpty
        || !(mkRow idx ((splitCh '\t' l).map trim)).shortDescription.isEmpty then
      mkRow idx ((splitCh '\t' l).map trim) :: parseRows idx rest
    else
      parseRows idx rest

/-- src/script.js `parsePastedData` (lines 136-189).  `none` embeds the
`null` sentinel returned on empty input or on the required-columns error. -/
def parsePastedData (text : Str) : Option (List RawRow) :=
  if trim text = [] then none
  else
    match (splitCh '\n' (trim text)).filter (fun l => !(trim l).isEmpty) with
    | [] => none
    | headerLine :: dataLines =>
      if falsyIdx (buildIndices ((splitCh '\t' headerLine).map trim) ColKey.NUMBER)
          && falsyIdx (buildIndices ((splitCh '\t' headerLine).map trim) ColKey.SHORT_DESCRIPTION) then
        none
      else
        some (parseRows (buildIndices ((splitCh '\t' headerLine).map trim)) dataLines)

/-! ### Row projector and serialization (src/script.js lines 194-208, 247-269) -/

/-- One output record (spec §3 OutputRow). -/
structure OutputRow where
  number : Str
  state : Str
  priority : Str
  assignmentGroup : Str
  filledBy : Str
  jobName : Str
deriving DecidableEq

/-- `OUTPUT_COLUMNS` (lines 25-32). -/
def OUTPUT_COLUMNS : List Str :=
  ["Number".data, "State".data, "Priority".data, "Assignment group".data,
   "filled by".data, "Job name".data]

/-- src/script.js `processData` (lines 194-208). -/
def processData (rawData : List RawRow) (filledBy : Str) : List OutputRow :=
  rawData.map (fun row =>
    { number := row.number
      state := row.state
      priority := processPriority row.priority
      assignmentGroup := row.assignmentGroup
      filledBy := filledBy
      jobName := extractJobName row.shortDescription })

/-- The per-row line of lines 256-266: the six fields joined by tabs, then
a newline. -/
def outRowLine (row : OutputRow) : Str :=
  joinTab [row.number, row.state, row.priority, row.assignmentGroup,
           row.filledBy, row.jobName] ++ ['\n']

/-- src/script.js `generateTabSeparatedOutput` (lines 247-269). -/
def generateTabSeparatedOutput (processedData : List OutputRow) : Str :=
  if processedData = [] then []
  else
    joinTab OUTPUT_COLUMNS ++ ['\n'] ++ (processedData.map outRowLine).flatten

/-! ### Specification-side predicates -/

/-- The spec's candidate-choice characterisation: `c` occurs in `l`, every
element of `l` is at most as long as `c`, and every element occurring
before `c` is strictly shorter (so `c` is the longest element, earliest on
ties). -/
def IsFirstLongest (c : Str) (l : List Str) : Prop :=
  ∃ pre post, l = pre ++ c :: post ∧ (∀ x ∈ pre, x.length < c.length) ∧
    ∀ x ∈ l, x.length ≤ c.length

/-! ### Helper lemmas -/

theorem dropWhile_pred_head (p : Char → Bool) (l : Str) (c : Char) (t : Str)
    (h : l.dropWhile p = c :: t) : p c = false := by
  induction l with
  | nil => simp [List.dropWhile] at h
  | cons a l ih =>
    rw [List.dropWhile_cons] at h
    by_cases hpa : p a = true
    · rw [if_pos hpa] at h
      exact ih h
    · rw [if_neg hpa] at h
      injection h with h1 _
      subst h1
      simpa using hpa

theorem dropWhile_fix_of_append (p : Char → Bool) {l xs junk : Str}
    (h : l.dropWhile p = xs ++ junk) : xs.dropWhile p = xs := by
  cases xs with
  | nil => rfl
  | cons c t =>
    have hpc : p c = false :=
      dropWhile_pred_head p l c (t ++ junk) (by simpa using h)
    exact List.dropWhile_cons_of_neg (by simp [hpc])

theorem dropWhile_self (p : Char → Bool) (l : Str) :
    (l.dropWhile p).dropWhile p = l.dropWhile p :=
  @dropWhile_fix_of_append p l (l.dropWhile p) [] (by simp)

theorem trim_split (s : Str) :
    s.dropWhile isWs = trim s ++ ((s.dropWhile isWs).reverse.takeWhile isWs).reverse := by
  calc s.dropWhile isWs
      = (s.dropWhile isWs).reverse.reverse := (List.reverse_reverse _).symm
    _ = ((s.dropWhile isWs).reverse.takeWhile isWs
          ++ (s.dropWhile isWs).reverse.dropWhile isWs).reverse := by
        rw [List.takeWhile_append_dropWhile]
    _ = _ := by rw [List.reverse_append]; rfl

theorem trim_trim (s : Str) : trim (trim s) = trim s := by
  have h1 : (trim s).dropWhile isWs = trim s :=
    dropWhile_fix_of_append isWs (trim_split s)
  have h2 : (trim s).reverse.dropWhile isWs = (trim s).reverse := by
    unfold trim
    rw [List.reverse_reverse]
    exact dropWhile_self isWs _
  show (((trim s).dropWhile isWs).reverse.dropWhile isWs).reverse = trim s
  rw [h1, h2, List.reverse_reverse]

theorem trim_getD (vs : List Str) :
    ∀ i : Nat, trim ((vs.map trim).getD i []) = (vs.map trim).getD i [] := by
  induction vs with
  | nil => intro i; cases i <;> rfl
  | cons v vs ih =>
    intro i
    cases i with
    | zero => simpa using trim_trim v
    | succ n => simpa using ih n

theorem getField_trimmed (idx : ColumnIndices) (k : ColKey) (vs : List Str) :
    trim (getField idx k (vs.map trim)) = getField idx k (vs.map trim) := by
  unfold getField
  cases idx k with
  | none => rfl
  | some i => exact trim_getD vs i

/-! ### Claims -/

/-- Claim C1 (code bug).  The claim says the "required columns missing"
error is signalled iff neither the Number nor Short description logical
field was matched, so that matching Number at column 0 should let parsing
proceed.  Line 164 of src/script.js tests JS truthiness of
`columnIndices.NUMBER`, and a column index of `0` is falsy, so a header
matching Number at column 0 with Short description absent is spuriously
rejected.  The conjuncts show: `Number` alone is matched at column 0, yet
parsing yields the error sentinel; while `Number` at column 1 parses
fine. -/
theorem claim1_required_columns_bug :
    buildIndices ((splitCh '\t' "Number".data).map trim) ColKey.NUMBER = some 0 ∧
    parsePastedData "Number\nINC0001".data = none ∧
    parsePastedData "Caller\tNumber\nx\tINC0001".data =
      some [{ number := "INC0001".data, state := [], priority := [],
              assignmentGroup := [], shortDescription := [] }] :=
  ⟨by decide, by decide, by decide⟩

/-- Claim C3.  The truncation pass scans the keywords Sunday..Saturday then
January..December in order; each iteration first checks for a separator
followed by the keyword, then for a separator followed by four digits, and
the first iteration in which either check matches truncates before the
matched separator and stops.  Consequently a candidate with a
separator-plus-year fragment but no separator-plus-Sunday fragment is
truncated at the year fragment already in the first iteration, whatever
later-ordered keywords it contains. -/
theorem claim3_truncation_order :
    (∀ (kw : Str) (kws : List Str) (c : Str),
        truncateLoop (kw :: kws) c =
          match findSepKw kw c with
          | some i => c.take i
          | none =>
            match findSepYear c with
            | some i => c.take i
            | none => truncateLoop kws c) ∧
    dateKeywords = daysOfWeek ++ months ∧
    (∀ (c : Str) (i : Nat),
        findSepKw "Sunday".data c = none → findSepYear c = some i →
        truncateDate c = c.take i) := by
  refine ⟨fun kw kws c => rfl, rfl, fun c i h1 h2 => ?_⟩
  unfold truncateDate dateKeywords daysOfWeek
  simp [truncateLoop, h1, h2]

/-- Witness for C3: a concrete candidate with a year fragment, no Sunday
fragment, and a later-ordered keyword (Monday). -/
theorem claim3_witness :
    findSepKw "Sunday".data "OMS_AB_2024_Monday".data = none ∧
    findSepYear "OMS_AB_2024_Monday".data = some 6 ∧
    truncateDate "OMS_AB_2024_Monday".data = "OMS_AB_2024_Monday".data.take 6 :=
  ⟨by decide, by decide,
    claim3_truncation_order.2.2 "OMS_AB_2024_Monday".data 6 (by decide) (by decide)⟩

/-- Claim C5: on the spec's concrete description the extractor returns
exactly `OMS_STORM_CASTER_DEP_OMS_FEED`. -/
theorem claim5_concrete_extraction :
    extractJobName
        "UAC Job:wf_StormCaster_DEP_OMS_Feed Application:OMS_STORM_CASTER_DEP_OMS_FEED_Sunday...".data
      = "OMS_STORM_CASTER_DEP_OMS_FEED".data := by decide

/-- Claim C6: the priority normalizer strips digits and hyphens, trims,
replaces `moderate` (case-insensitively) with `Medium`, and capitalises;
with the spec's three concrete examples. -/
theorem claim6_priority_pipeline :
    (∀ p : Str, processPriority p = specPriority p) ∧
    processPriority "2 - High".data = "High".data ∧
    processPriority "3 - Moderate".data = "Medium".data ∧
    processPriority [] = [] := by
  refine ⟨fun p => ?_, by decide, by decide, rfl⟩
  cases p <;> rfl

/-- Witness for C6 at a concrete input. -/
theorem claim6_witness :
    processPriority "1 - Critical".data = specPriority "1 - Critical".data :=
  claim6_priority_pipeline.1 "1 - Critical".data

/-- Claim C7: a data row is kept iff its number or its shortDescription is
non-empty, other fields notwithstanding, and input order is preserved:
the row loop equals a map followed by that filter. -/
theorem claim7_row_retention :
    ∀ (idx : ColumnIndices) (ls : List Str),
      parseRows idx ls =
        (ls.map (fun l => mkRow idx ((splitCh '\t' l).map trim))).filter
          (fun r => !r.number.isEmpty || !r.shortDescription.isEmpty) := by
  intro idx ls
  induction ls with
  | nil => rfl
  | cons l rest ih =>
    rw [List.map_cons, List.filter_cons, parseRows, ih]

/-- Witness for C7 at a concrete header map and data lines: a row with
only other fields populated is dropped, a row with a number is kept. -/
theorem claim7_witness :
    parseRows (buildIndices ["Number".data, "State".data]) ["\tNew".data, "INC9\tOpen".data] =
      ((["\tNew".data, "INC9\tOpen".data]).map
        (fun l => mkRow (buildIndices ["Number".data, "State".data]) ((splitCh '\t' l).map trim))).filter
          (fun r => !r.number.isEmpty || !r.shortDescription.isEmpty) :=
  claim7_row_retention (buildIndices ["Number".data, "State".data])
    ["\tNew".data, "INC9\tOpen".data]

/-- Claim C10: every field of every parsed row is already trimmed, and
cell lists equal after trimming parse to equal rows. -/
theorem claim10_fields_trimmed :
    (∀ (idx : ColumnIndices) (l : Str),
        trim (mkRow idx ((splitCh '\t' l).map trim)).number
            = (mkRow idx ((splitCh '\t' l).map trim)).number ∧
        trim (mkRow idx ((splitCh '\t' l).map trim)).state
            = (mkRow idx ((splitCh '\t' l).map trim)).state ∧
        trim (mkRow idx ((splitCh '\t' l).map trim)).priority
            = (mkRow idx ((splitCh '\t' l).map trim)).priority ∧
        trim (mkRow idx ((splitCh '\t' l).map trim)).assignmentGroup
            = (mkRow idx ((splitCh '\t' l).map trim)).assignmentGroup ∧
        trim (mkRow idx ((splitCh '\t' l).map trim)).shortDescription
            = (mkRow idx ((splitCh '\t' l).map trim)).shortDescription) ∧
    (∀ (idx : ColumnIndices) (vs vs' : List Str),
        vs.map trim = vs'.map trim →
        mkRow idx (vs.map trim) = mkRow idx (vs'.map trim)) := by
  refine ⟨fun idx l => ?_, fun idx vs vs' h => by rw [h]⟩
  exact ⟨getField_trimmed idx _ _, getField_trimmed idx _ _, getField_trimmed idx _ _,
    getField_trimmed idx _ _, getField_trimmed idx _ _⟩

/-- Witness for C10 at a concrete line and a concrete pair of cell lists
differing only in surrounding whitespace. -/
theorem claim10_witness :
    trim (mkRow (buildIndices ["Number".data]) ((splitCh '\t' " INC7 \tx".data).map trim)).number
        = (mkRow (buildIndices ["Number".data]) ((splitCh '\t' " INC7 \tx".data).map trim)).number ∧
    mkRow emptyIndices ([" a".data].map trim) = mkRow emptyIndices (["a  ".data].map trim) :=
  ⟨(claim10_fields_trimmed.1 (buildIndices ["Number".data]) " INC7 \tx".data).1,
   claim10_fields_trimmed.2 emptyIndices [" a".data] ["a  ".data] (by decide)⟩

theorem outRowLine_eq (r : RawRow) (fb : Str) :
    outRowLine { number := r.number, state := r.state,
                 priority := processPriority r.priority,
                 assignmentGroup := r.assignmentGroup, filledBy := fb,
                 jobName := extractJobName r.shortDescription } =
      r.number ++ '\t' :: r.state ++ '\t' :: processPriority r.priority ++ '\t' ::
        r.assignmentGroup ++ '\t' :: fb ++ '\t' ::
          extractJobName r.shortDescription ++ ['\n'] := by
  simp [outRowLine, joinTab, List.append_assoc]

theorem rows_flatten (fb : Str) (raw : List RawRow) :
    ((processData raw fb).map outRowLine).flatten =
      (raw.map (fun r =>
        r.number ++ '\t' :: r.state ++ '\t' :: processPriority r.priority ++ '\t' ::
          r.assignmentGroup ++ '\t' :: fb ++ '\t' ::
            extractJobName r.shortDescription ++ ['\n'])).flatten := by
  induction raw with
  | nil => rfl
  | cons r rs ih =>
    have h1 : processData (r :: rs) fb =
        { number := r.number, state := r.state,
          priority := processPriority r.priority,
          assignmentGroup := r.assignmentGroup, filledBy := fb,
          jobName := extractJobName r.shortDescription } :: processData rs fb := rfl
    rw [h1, List.map_cons, List.flatten_cons, List.map_cons, List.flatten_cons, ih,
      outRowLine_eq]

/-- Counterexample to C8 as stated: a processing run that retains zero
rows serializes to the empty string, not to the fixed header line followed
by zero row lines. -/
theorem claim8_counterexample :
    generateTabSeparatedOutput (processData [] "Me".data) ≠
      joinTab OUTPUT_COLUMNS ++ ['\n'] := by decide

/-- Claim C8, amended: the header text is the fixed
`Number\tState\tPriority\tAssignment group\tfilled by\tJob name`; a run
retaining zero rows serializes to the empty string; and a run retaining at
least one row serializes to the header line followed by one tab-separated
line per retained row whose six fields are, in order, number, state,
normalized priority, assignmentGroup, filledBy, jobName — independently of
the input column layout, which a `RawRow` does not carry. -/
theorem claim8_amended_serialization :
    joinTab OUTPUT_COLUMNS =
      "Number\tState\tPriority\tAssignment group\tfilled by\tJob name".data ∧
    (∀ fb : Str, generateTabSeparatedOutput (processData [] fb) = []) ∧
    (∀ (raw : List RawRow) (fb : Str), raw ≠ [] →
        generateTabSeparatedOutput (processData raw fb) =
          joinTab OUTPUT_COLUMNS ++ '\n' ::
            (raw.map (fun r =>
              r.number ++ '\t' :: r.state ++ '\t' :: processPriority r.priority ++
                '\t' :: r.assignmentGroup ++ '\t' :: fb ++ '\t' ::
                  extractJobName r.shortDescription ++ ['\n'])).flatten) := by
  refine ⟨by decide, fun fb => rfl, fun raw fb hne => ?_⟩
  have hpd : processData raw fb ≠ [] := by
    cases raw with
    | nil => exact absurd rfl hne
    | cons r rs => simp [processData]
  unfold generateTabSeparatedOutput
  rw [if_neg hpd, List.append_assoc, List.singleton_append, rows_flatten fb raw]

theorem chooseCandidate_cons (t0 : Str) (rest : List Str) :
    chooseCandidate (t0 :: rest) =
      match bestUpperFold (t0 :: rest) none with
      | some b => b
      | none => longestFold (t0 :: rest) t0 := rfl

theorem findSepKw_cons (kw : Str) (c : Char) (rest : Str) :
    findSepKw kw (c :: rest) =
      if isSep c && lowersTo kw rest then some 0
      else (findSepKw kw rest).map (· + 1) := rfl

theorem findSepYear_cons (c : Char) (rest : Str) :
    findSepYear (c :: rest) =
      if isSep c && fourDigits rest then some 0
      else (findSepYear rest).map (· + 1) := rfl

theorem truncateLoop_cons (kw : Str) (kws : List Str) (best : Str) :
    truncateLoop (kw :: kws) best =
      match findSepKw kw best with
      | some i => best.take i
      | none =>
        match findSepYear best with
        | some i => best.take i
        | none => truncateLoop kws best := rfl

theorem longestFold_first_longest (l : List Str) :
    ∀ acc : Str, IsFirstLongest (longestFold l acc) (acc :: l) := by
  induction l with
  | nil =>
    intro acc
    exact ⟨[], [], rfl, by simp, by simp [longestFold]⟩
  | cons t rest ih =>
    intro acc
    by_cases hlt : acc.length < t.length
    · have hfold : longestFold (t :: rest) acc = longestFold rest t := by
        simp [longestFold, hlt]
      rw [hfold]
      obtain ⟨pre, post, hdec, hpre, hall⟩ := ih t
      have ht : t.length ≤ (longestFold rest t).length :=
        hall t (List.mem_cons_self t rest)
      refine ⟨acc :: pre, post, ?_, ?_, ?_⟩
      · rw [List.cons_append, ← hdec]
      · intro x hx
        rcases List.mem_cons.mp hx with hx | hx
        · subst hx; exact lt_of_lt_of_le hlt ht
        · exact hpre x hx
      · intro x hx
        rcases List.mem_cons.mp hx with hx | hx
        · subst hx; exact le_of_lt (lt_of_lt_of_le hlt ht)
        · exact hall x hx
    · have hfold : longestFold (t :: rest) acc = longestFold rest acc := by
        simp [longestFold, hlt]
      rw [hfold]
      obtain ⟨pre, post, hdec, hpre, hall⟩ := ih acc
      have hta : t.length ≤ acc.length := Nat.le_of_not_lt hlt
      cases pre with
      | nil =>
        rw [List.nil_append] at hdec
        injection hdec with h1 h2
        refine ⟨[], t :: rest, ?_, by simp, ?_⟩
        · rw [List.nil_append, ← h1]
        · intro x hx
          rcases List.mem_cons.mp hx with hx | hx
          · subst hx; rw [← h1]
          · rcases List.mem_cons.mp hx with hx | hx
            · subst hx; rw [← h1]; exact hta
            · exact hall x (List.mem_cons_of_mem acc hx)
      | cons p0 pre2 =>
        rw [List.cons_append] at hdec
        injection hdec with h1 h2
        have hacc : acc.length < (longestFold rest acc).length := by
          have h0 := hpre p0 (List.mem_cons_self p0 pre2)
          rw [← h1] at h0
          exact h0
        refine ⟨acc :: t :: pre2, post, ?_, ?_, ?_⟩
        · show acc :: t :: rest = acc :: t :: (pre2 ++ longestFold rest acc :: post)
          rw [← h2]
        · intro x hx
          rcases List.mem_cons.mp hx with hx | hx
          · subst hx; exact hacc
          · rcases List.mem_cons.mp hx with hx | hx
            · subst hx; exact lt_of_le_of_lt hta hacc
            · exact hpre x (List.mem_cons_of_mem p0 hx)
        · intro x hx
          rcases List.mem_cons.mp hx with hx | hx
          · subst hx; exact le_of_lt hacc
          · rcases List.mem_cons.mp hx with hx | hx
            · subst hx; exact le_of_lt (lt_of_le_of_lt hta hacc)
            · exact hall x (List.mem_cons_of_mem acc hx)

theorem bestUpperFold_some (l : List Str) :
    ∀ b : Str, bestUpperFold l (some b) = some (longestFold (l.filter isUpperStr) b) := by
  induction l with
  | nil => intro b; rfl
  | cons t rest ih =>
    intro b
    by_cases hu : isUpperStr t = true
    · rw [List.filter_cons, if_pos hu]
      by_cases hc : (b.isEmpty || decide (b.length < t.length)) = true
      · have hstep : bestUpperFold (t :: rest) (some b) = bestUpperFold rest (some t) := by
          simp [bestUpperFold, jsFalsyOpt, optLength, hu, hc]
        rw [hstep, ih]
        have hred : longestFold (t :: rest.filter isUpperStr) b
            = longestFold (rest.filter isUpperStr) (if b.length < t.length then t else b) := rfl
        rw [hred]
        by_cases hbt : b.length < t.length
        · rw [if_pos hbt]
        · rw [if_neg hbt]
          have hb : b.isEmpty = true := by
            have hor : b.isEmpty = true ∨ b.length < t.length := by simpa using hc
            rcases hor with h | h
            · exact h
            · exact absurd h hbt
          have hb2 : b = [] := List.isEmpty_iff.mp hb
          have ht2 : t = [] := by
            subst hb2
            have h0 : t.length ≤ 0 := Nat.le_of_not_lt (by simpa using hbt)
            exact List.eq_nil_of_length_eq_zero (Nat.le_zero.mp h0)
          rw [hb2, ht2]
      · have hstep : bestUpperFold (t :: rest) (some b) = bestUpperFold rest (some b) := by
          simp only [bestUpperFold, jsFalsyOpt, optLength, hu, hc]
          simp [hc]
        rw [hstep, ih]
        have hbt : ¬ b.length < t.length := by
          intro hlt
          simp [hlt] at hc
        have hred : longestFold (t :: rest.filter isUpperStr) b
            = longestFold (rest.filter isUpperStr) (if b.length < t.length then t else b) := rfl
        rw [hred, if_neg hbt]
    · have hstep : bestUpperFold (t :: rest) (some b) = bestUpperFold rest (some b) := by
        simp [bestUpperFold, hu]
      rw [hstep, ih, List.filter_cons, if_neg hu]

theorem bestUpperFold_none (l : List Str) :
    bestUpperFold l none =
      match l.filter isUpperStr with
      | [] => none
      | u :: us => some (longestFold us u) := by
  induction l with
  | nil => rfl
  | cons t rest ih =>
    by_cases hu : isUpperStr t = true
    · have hstep : bestUpperFold (t :: rest) none = bestUpperFold rest (some t) := by
        simp [bestUpperFold, jsFalsyOpt, hu]
      rw [hstep, bestUpperFold_some, List.filter_cons, if_pos hu]
    · have hstep : bestUpperFold (t :: rest) none = bestUpperFold rest none := by
        simp [bestUpperFold, hu]
      rw [hstep, ih, List.filter_cons, if_neg hu]

/-- Claim C4: the chosen candidate is the longest fully-upper-case matched
text when one exists, else the longest matched text overall, earlier
occurrences winning ties; and with no occurrences at all the extractor
returns the empty string. -/
theorem claim4_candidate_selection :
    (∀ s : Str, omsMatches s = [] → extractJobName s = []) ∧
    (∀ ts : List Str, ts ≠ [] →
        if ts.filter isUpperStr = [] then IsFirstLongest (chooseCandidate ts) ts
        else IsFirstLongest (chooseCandidate ts) (ts.filter isUpperStr)) := by
  constructor
  · intro s h
    unfold extractJobName
    rw [h]
  · intro ts hne
    cases ts with
    | nil => exact absurd rfl hne
    | cons t0 rest =>
      by_cases hf : (t0 :: rest).filter isUpperStr = []
      · rw [if_pos hf]
        have hbu : bestUpperFold (t0 :: rest) none = none := by
          rw [bestUpperFold_none, hf]
        have hcc : chooseCandidate (t0 :: rest) = longestFold rest t0 := by
          rw [chooseCandidate_cons, hbu]
          simp [longestFold]
        rw [hcc]
        exact longestFold_first_longest rest t0
      · rw [if_neg hf]
        cases hfc : (t0 :: rest).filter isUpperStr with
        | nil => exact absurd hfc hf
        | cons u us =>
          have hcc : chooseCandidate (t0 :: rest) = longestFold us u := by
            rw [chooseCandidate_cons, bestUpperFold_none, hfc]
          rw [hcc]
          exact longestFold_first_longest us u

/-- Witness for C4: a description with no match, and a concrete candidate
list with one upper-case text. -/
theorem claim4_witness :
    extractJobName "no pattern here".data = [] ∧
    (if (["OMS_a".data, "OMS_BC".data].filter isUpperStr) = []
     then IsFirstLongest (chooseCandidate ["OMS_a".data, "OMS_BC".data])
            ["OMS_a".data, "OMS_BC".data]
     else IsFirstLongest (chooseCandidate ["OMS_a".data, "OMS_BC".data])
            (["OMS_a".data, "OMS_BC".data].filter isUpperStr)) :=
  ⟨claim4_candidate_selection.1 "no pattern here".data (by decide),
   claim4_candidate_selection.2 ["OMS_a".data, "OMS_BC".data] (by decide)⟩

theorem longestFold_mem (l : List Str) : ∀ acc : Str, longestFold l acc ∈ acc :: l := by
  induction l with
  | nil => intro acc; simp [longestFold]
  | cons t rest ih =>
    intro acc
    have h : longestFold (t :: rest) acc
        = longestFold rest (if acc.length < t.length then t else acc) := rfl
    rw [h]
    rcases List.mem_cons.mp (ih (if acc.length < t.length then t else acc)) with h1 | h1
    · rw [h1]
      by_cases hlt : acc.length < t.length
      · simp [hlt]
      · simp [hlt]
    · exact List.mem_cons_of_mem _ (List.mem_cons_of_mem _ h1)

theorem chooseCandidate_mem (t0 : Str) (rest : List Str) :
    chooseCandidate (t0 :: rest) ∈ t0 :: rest := by
  rw [chooseCandidate_cons, bestUpperFold_none]
  cases hfc : (t0 :: rest).filter isUpperStr with
  | nil =>
    rcases List.mem_cons.mp (longestFold_mem (t0 :: rest) t0) with h | h
    · simp [h]
    · exact h
  | cons u us =>
    have hmem : longestFold us u ∈ (t0 :: rest).filter isUpperStr := by
      rw [hfc]
      exact longestFold_mem us u
    exact List.mem_of_mem_filter hmem

theorem findSepKw_cons_notsep (kw : Str) (c : Char) (rest : Str) (h : isSep c = false) :
    findSepKw kw (c :: rest) = (findSepKw kw rest).map (· + 1) := by
  rw [findSepKw_cons]
  simp [h]

theorem findSepYear_cons_notsep (c : Char) (rest : Str) (h : isSep c = false) :
    findSepYear (c :: rest) = (findSepYear rest).map (· + 1) := by
  rw [findSepYear_cons]
  simp [h]

theorem findSepKw_oms (kw cap : Str) (i : Nat)
    (h : findSepKw kw (omsLit ++ cap) = some i) : 3 ≤ i := by
  have e : omsLit ++ cap = 'O' :: 'M' :: 'S' :: '_' :: cap := rfl
  rw [e, findSepKw_cons_notsep kw 'O' _ (by decide),
      findSepKw_cons_notsep kw 'M' _ (by decide),
      findSepKw_cons_notsep kw 'S' _ (by decide)] at h
  rcases Option.map_eq_some'.mp h with ⟨a, ha, hia⟩
  rcases Option.map_eq_some'.mp ha with ⟨b, hb, hab⟩
  rcases Option.map_eq_some'.mp hb with ⟨c, _, hbc⟩
  omega

theorem findSepYear_oms (cap : Str) (i : Nat)
    (h : findSepYear (omsLit ++ cap) = some i) : 3 ≤ i := by
  have e : omsLit ++ cap = 'O' :: 'M' :: 'S' :: '_' :: cap := rfl
  rw [e, findSepYear_cons_notsep 'O' _ (by decide),
      findSepYear_cons_notsep 'M' _ (by decide),
      findSepYear_cons_notsep 'S' _ (by decide)] at h
  rcases Option.map_eq_some'.mp h with ⟨a, ha, hia⟩
  rcases Option.map_eq_some'.mp ha with ⟨b, hb, hab⟩
  rcases Option.map_eq_some'.mp hb with ⟨c, _, hbc⟩
  omega

theorem truncateLoop_oms (kws : List Str) (cap : Str) :
    (truncateLoop kws (omsLit ++ cap)).take 3 = "OMS".data ∧
    3 ≤ (truncateLoop kws (omsLit ++ cap)).length := by
  induction kws with
  | nil =>
    refine ⟨rfl, ?_⟩
    simp only [truncateLoop, List.length_append]
    have : omsLit.length = 4 := rfl
    omega
  | cons kw rest ih =>
    cases hk : findSepKw kw (omsLit ++ cap) with
    | some i =>
      have h3 : 3 ≤ i := findSepKw_oms kw cap i hk
      have hr : truncateLoop (kw :: rest) (omsLit ++ cap) = (omsLit ++ cap).take i := by
        rw [truncateLoop_cons, hk]
      rw [hr]
      constructor
      · rw [List.take_take, Nat.min_eq_left h3]
        rfl
      · rw [List.length_take]
        refine le_min h3 ?_
        simp only [List.length_append]
        have : omsLit.length = 4 := rfl
        omega
    | none =>
      cases hy : findSepYear (omsLit ++ cap) with
      | some i =>
        have h3 : 3 ≤ i := findSepYear_oms cap i hy
        have hr : truncateLoop (kw :: rest) (omsLit ++ cap) = (omsLit ++ cap).take i := by
          rw [truncateLoop_cons, hk, hy]
        rw [hr]
        constructor
        · rw [List.take_take, Nat.min_eq_left h3]
          rfl
        · rw [List.length_take]
          refine le_min h3 ?_
          simp only [List.length_append]
          have : omsLit.length = 4 := rfl
          omega
      | none =>
        have hr : truncateLoop (kw :: rest) (omsLit ++ cap)
            = truncateLoop rest (omsLit ++ cap) := by
          rw [truncateLoop_cons, hk, hy]
        rw [hr]
        exact ih

/-- Claim C9: the extractor returns the empty string or a string of length
at least three starting with `OMS`; the truncation pass never cuts into
the `OMS` prefix because every separator sits at index 3 or later. -/
theorem claim9_oms_shape :
    ∀ s : Str,
      extractJobName s = [] ∨
      ((extractJobName s).take 3 = "OMS".data ∧ 3 ≤ (extractJobName s).length) := by
  intro s
  cases hm : omsMatches s with
  | nil =>
    left
    unfold extractJobName
    rw [hm]
  | cons m0 ms =>
    right
    have hE : extractJobName s =
        upperStr (truncateDate (chooseCandidate ((m0 :: ms).map (fun cap => omsLit ++ cap)))) := by
      unfold extractJobName
      rw [hm]
    have hmem := chooseCandidate_mem ((fun cap => omsLit ++ cap) m0)
      (ms.map (fun cap => omsLit ++ cap))
    rw [← List.map_cons] at hmem
    rcases List.mem_map.mp hmem with ⟨cap, _, hcap⟩
    have hcap2 : omsLit ++ cap
        = chooseCandidate ((m0 :: ms).map (fun cap => omsLit ++ cap)) := hcap
    rw [hE, ← hcap2]
    unfold truncateDate
    obtain ⟨h1, h2⟩ := truncateLoop_oms dateKeywords cap
    constructor
    · rw [upperStr, ← List.map_take, h1]
      rfl
    · rw [upperStr, List.length_map]
      exact h2

/-- Witness for C9 at two concrete descriptions (one with a match whose
truncation removes the underscore, one without any match). -/
theorem claim9_witness :
    (extractJobName "x:OMS_Sunday".data = [] ∨
      ((extractJobName "x:OMS_Sunday".data).take 3 = "OMS".data ∧
        3 ≤ (extractJobName "x:OMS_Sunday".data).length)) ∧
    (extractJobName "nothing".data = [] ∨
      ((extractJobName "nothing".data).take 3 = "OMS".data ∧
        3 ≤ (extractJobName "nothing".data).length)) :=
  ⟨claim9_oms_shape "x:OMS_Sunday".data, claim9_oms_shape "nothing".data⟩

/-- Witness for C8 at a one-row run. -/
theorem claim8_witness :
    generateTabSeparatedOutput
        (processData [{ number := "INC1".data, state := "New".data,
                        priority := "2 - High".data, assignmentGroup := "G".data,
                        shortDescription := "d:OMS_X".data }] "Me".data) =
      joinTab OUTPUT_COLUMNS ++ '\n' ::
        ([{ number := "INC1".data, state := "New".data,
            priority := "2 - High".data, assignmentGroup := "G".data,
            shortDescription := "d:OMS_X".data : RawRow }].map (fun r =>
          r.number ++ '\t' :: r.state ++ '\t' :: processPriority r.priority ++
            '\t' :: r.assignmentGroup ++ '\t' :: "Me".data ++ '\t' ::
              extractJobName r.shortDescription ++ ['\n'])).flatten :=
  claim8_amended_serialization.2.2
    [{ number := "INC1".data, state := "New".data, priority := "2 - High".data,
       assignmentGroup := "G".data, shortDescription := "d:OMS_X".data }]
    "Me".data (by decide)

theorem splitCh_ne_nil (sep : Char) (l : Str) : splitCh sep l ≠ [] := by
  cases l with
  | nil => simp [splitCh]
  | cons c rest =>
    cases h : splitCh sep rest with
    | nil => simp [splitCh, h]
    | cons a t => by_cases hc : c = sep <;> simp [splitCh, h, hc]

theorem splitCh_cons_eq (sep : Char) (c : Char) (rest : Str) :
    splitCh sep (c :: rest) =
      match splitCh sep rest with
      | [] => [[c]]
      | h :: t => if c = sep then [] :: h :: t else (c :: h) :: t := rfl

theorem splitCh_append (sep : Char) (xs ys : Str) (u : Str) (us : List Str)
    (hys : splitCh sep ys = u :: us) (hx : ∀ c ∈ xs, c ≠ sep) :
    splitCh sep (xs ++ ys) = (xs ++ u) :: us := by
  induction xs with
  | nil => simpa using hys
  | cons c xs ih =>
    have hc : c ≠ sep := hx c (List.mem_cons_self c xs)
    have hih := ih (fun d hd => hx d (List.mem_cons_of_mem c hd))
    rw [List.cons_append, splitCh_cons_eq, hih]
    simp [hc]

theorem splitCh_sep_cons (sep : Char) (v : Str) :
    splitCh sep (sep :: v) = [] :: splitCh sep v := by
  cases h : splitCh sep v with
  | nil => exact absurd h (splitCh_ne_nil sep v)
  | cons a t =>
    rw [splitCh_cons_eq, h]
    simp

theorem parse_eq_of_trim_eq (t u : Str) (h : trim t = trim u) :
    parsePastedData t = parsePastedData u := by
  unfold parsePastedData
  rw [h]

theorem parse_of_header (z : Str) :
    parsePastedData (joinTab OUTPUT_COLUMNS ++ '\n' :: z) = none := by
  have hH2e : ((joinTab OUTPUT_COLUMNS).dropWhile isWs).isEmpty = false := by decide
  have hH2 : (joinTab OUTPUT_COLUMNS).dropWhile isWs = joinTab OUTPUT_COLUMNS := by decide
  have hH3 : (joinTab OUTPUT_COLUMNS).reverse.dropWhile isWs
      = (joinTab OUTPUT_COLUMNS).reverse := by decide
  have hA : (joinTab OUTPUT_COLUMNS ++ '\n' :: z).dropWhile isWs
      = joinTab OUTPUT_COLUMNS ++ '\n' :: z := by
    rw [List.dropWhile_append, hH2e]
    simp [hH2]
  have htrim : trim (joinTab OUTPUT_COLUMNS ++ '\n' :: z)
      = (((z.reverse ++ ['\n']) ++ (joinTab OUTPUT_COLUMNS).reverse).dropWhile isWs).reverse := by
    unfold trim
    rw [hA, List.reverse_append, List.reverse_cons]
  by_cases hD : (z.reverse.dropWhile isWs).isEmpty = true
  · have h1 : ((z.reverse ++ ['\n']).dropWhile isWs).isEmpty = true := by
      rw [List.dropWhile_append, hD, if_pos rfl]
      decide
    have hdrop : ((z.reverse ++ ['\n']) ++ (joinTab OUTPUT_COLUMNS).reverse).dropWhile isWs
        = (joinTab OUTPUT_COLUMNS).reverse := by
      rw [List.dropWhile_append, h1, if_pos rfl, hH3]
    have htrim2 : trim (joinTab OUTPUT_COLUMNS ++ '\n' :: z) = joinTab OUTPUT_COLUMNS := by
      rw [htrim, hdrop, List.reverse_reverse]
    have heq := parse_eq_of_trim_eq (joinTab OUTPUT_COLUMNS ++ '\n' :: z)
      (joinTab OUTPUT_COLUMNS) (by rw [htrim2]; decide)
    rw [heq]
    decide
  · have hDne : (z.reverse ++ ['\n']).dropWhile isWs
        = z.reverse.dropWhile isWs ++ ['\n'] := by
      rw [List.dropWhile_append, if_neg hD]
    have houter : ((z.reverse ++ ['\n']) ++ (joinTab OUTPUT_COLUMNS).reverse).dropWhile isWs
        = (z.reverse.dropWhile isWs ++ ['\n']) ++ (joinTab OUTPUT_COLUMNS).reverse := by
      rw [List.dropWhile_append, hDne, if_neg (by simp)]
    have htrim2 : trim (joinTab OUTPUT_COLUMNS ++ '\n' :: z)
        = joinTab OUTPUT_COLUMNS ++ '\n' :: (z.reverse.dropWhile isWs).reverse := by
      rw [htrim, houter]
      simp
    cases hsc : splitCh '\n' ((z.reverse.dropWhile isWs).reverse) with
    | nil => exact absurd hsc (splitCh_ne_nil _ _)
    | cons u us =>
      have hsa : splitCh '\n' ('\n' :: (z.reverse.dropWhile isWs).reverse)
          = [] :: u :: us := by
        rw [splitCh_sep_cons, hsc]
      have hall : splitCh '\n' (trim (joinTab OUTPUT_COLUMNS ++ '\n' :: z))
          = (joinTab OUTPUT_COLUMNS ++ []) :: u :: us := by
        rw [htrim2]
        exact splitCh_append '\n' (joinTab OUTPUT_COLUMNS) _ [] (u :: us) hsa (by decide)
      have hlines : (splitCh '\n' (trim (joinTab OUTPUT_COLUMNS ++ '\n' :: z))).filter
            (fun l => !(trim l).isEmpty)
          = joinTab OUTPUT_COLUMNS :: ((u :: us).filter (fun l => !(trim l).isEmpty)) := by
        rw [hall, List.append_nil, List.filter_cons, if_pos (by decide)]
      have hne : ¬(trim (joinTab OUTPUT_COLUMNS ++ '\n' :: z) = []) := by
        rw [htrim2]
        simp
      unfold parsePastedData
      rw [if_neg hne, hlines]
      show (if falsyIdx (buildIndices ((splitCh '\t' (joinTab OUTPUT_COLUMNS)).map trim)
                ColKey.NUMBER)
              && falsyIdx (buildIndices ((splitCh '\t' (joinTab OUTPUT_COLUMNS)).map trim)
                ColKey.SHORT_DESCRIPTION) then
            none
          else
            some (parseRows (buildIndices ((splitCh '\t' (joinTab OUTPUT_COLUMNS)).map trim))
              ((u :: us).filter (fun l => !(trim l).isEmpty)))) = none
      rw [if_pos (by decide)]

/-- Claim C2 (code bug).  The round-trip claimed by the spec never
succeeds: the serialized output's header places `Number` at column 0 and
has no `Short description` column, so re-parsing it always trips the falsy
required-columns check of line 164 and returns the null sentinel. -/
theorem claim2_roundtrip_always_fails :
    ∀ rows : List OutputRow,
      parsePastedData (generateTabSeparatedOutput rows) = none := by
  intro rows
  cases rows with
  | nil => decide
  | cons r rs =>
    have hgen : generateTabSeparatedOutput (r :: rs)
        = joinTab OUTPUT_COLUMNS ++ '\n' :: ((r :: rs).map outRowLine).flatten := by
      unfold generateTabSeparatedOutput
      rw [if_neg (by simp), List.append_assoc, List.singleton_append]
    rw [hgen]
    exact parse_of_header _

/-- Witness for C2 on a concrete serialized row. -/
theorem claim2_witness :
    parsePastedData
        (generateTabSeparatedOutput
          [{ number := "INC0001".data, state := "New".data, priority := "High".data,
             assignmentGroup := "G".data, filledBy := "Me".data, jobName := "OMS_X".data }])
      = none :=
  claim2_roundtrip_always_fails
    [{ number := "INC0001".data, state := "New".data, priority := "High".data,
       assignmentGroup := "G".data, filledBy := "Me".data, jobName := "OMS_X".data }]

end OMS
